import Mathlib

/-!
Shallow embedding of the MySQL terminal simulator interpreter core
(src/src/MySQLTerminalSimulator.jsx): the tokenizer, the WHERE
expression parser and evaluator, literal/list parsing, and the DML
executors (INSERT/SELECT/UPDATE/DELETE) together with the
auto-increment bookkeeping, plus the ASCII grid width computation.

Modelling conventions:
* JavaScript numbers are modelled as exact rationals; IEEE-754
  rounding is not modelled (all literals reachable in the source are
  short decimal strings, where the two agree).
* JavaScript `NaN` is modelled as `none` in `Option Rat` results of
  numeric coercion; every comparison against `none` is false, exactly
  as every comparison against `NaN` is false.
* JavaScript objects keyed by strings are modelled as insertion
  ordered association lists (`List (String × _)`) with
  replace-or-append assignment, which matches JS property order.
* `Number(string)` is modelled on the sign/decimal/exponent fragment;
  hexadecimal and Infinity forms are not modelled (unreachable from
  the simulator inputs exercised here).
* The character class `\s` is modelled by the ASCII whitespace
  characters.
-/

namespace MSim

/-- Stored cell values of the simulator: SQL NULL is JS `null`; absent
object properties read as JS `undefined`; numbers and strings as in
`parseLiteral`. -/
inductive Value where
  | vnull
  | undefV
  | num (q : ℚ)
  | str (s : String)
  deriving DecidableEq, Repr

/-- Result of evaluating a WHERE expression node: either a plain value
(literal or column read) or a boolean (comparison / degenerate node). -/
inductive JSV where
  | ofV (v : Value)
  | ofB (b : Bool)
  deriving DecidableEq, Repr

/-- Association list lookup (JS object property read). -/
def alookup {α : Type} : List (String × α) → String → Option α
  | [], _ => none
  | (k, v) :: rest, k' => if k = k' then some v else alookup rest k'

/-- Association list write (JS object property assignment): replace in
place if present, else append, preserving insertion order. -/
def aset {α : Type} : List (String × α) → String → α → List (String × α)
  | [], k, v => [(k, v)]
  | (k', v') :: rest, k, v =>
      if k' = k then (k, v) :: rest else (k', v') :: aset rest k v

/-- A table row: JS object mapping column names to values. -/
abbrev Row := List (String × Value)

/-- Reading `row[c]`: `undefined` when the property is absent. -/
def rowGet (r : Row) (k : String) : Value := (alookup r k).getD .undefV

/-- ASCII whitespace, modelling the regex class `\s`. -/
def isWS (c : Char) : Bool :=
  c = ' ' || c = '\t' || c = '\n' || c = '\r' || c = '\x0b' || c = '\x0c'

/-- The single-character punctuation set `,();=<>!*` of the tokenizer. -/
def isPunct (c : Char) : Bool :=
  c = ',' || c = '(' || c = ')' || c = ';' || c = '=' || c = '<' ||
  c = '>' || c = '!' || c = '*'

/-- Characters that terminate a bare word: whitespace, punctuation and
the three quote characters. -/
def isWordStop (c : Char) : Bool :=
  isWS c || isPunct c || c = '\x27' || c = '"' || c = '\x60'

/-- Maximal run of decimal digits: returns the digits and the rest. -/
def takeDigits : List Char → List Char × List Char
  | [] => ([], [])
  | c :: rest =>
      if c.isDigit then
        let p := takeDigits rest
        (c :: p.1, p.2)
      else ([], c :: rest)

/-- Value of a digit string (most significant first). -/
def digitsToNat (l : List Char) : Nat :=
  l.foldl (fun n c => 10 * n + (c.toNat - 48)) 0

/-- Test for the regex `^\d+$`. -/
def isIntChars (l : List Char) : Bool :=
  match takeDigits l with
  | (ds, rest) => !ds.isEmpty && rest.isEmpty

/-- Test for the regex `^\d+\.\d+$`. -/
def isDecChars (l : List Char) : Bool :=
  match takeDigits l with
  | (ds, '.' :: rest) =>
      !ds.isEmpty &&
        (match takeDigits rest with
         | (fs, rem) => !fs.isEmpty && rem.isEmpty)
  | _ => false

/-- Test for the regex `^\d+(?:\.\d+)?$` used by the WHERE value parser. -/
def isNumWord (s : String) : Bool := isIntChars s.data || isDecChars s.data

/-- Rational value of a decimal digit string `intPart.fracPart`. -/
def decToRat (ds fs : List Char) : ℚ :=
  (digitsToNat ds : ℚ) + (digitsToNat fs : ℚ) / ((10 : ℚ) ^ fs.length)

/-- `Number(w)` for a word matching `^\d+(?:\.\d+)?$`. -/
def numWordToRat (s : String) : ℚ :=
  match takeDigits s.data with
  | (ds, '.' :: rest) => decToRat ds (takeDigits rest).1
  | (ds, _) => (digitsToNat ds : ℚ)

/-- Drop ASCII whitespace from both ends (JS `String.prototype.trim`
restricted to ASCII inputs). -/
def trimChars (l : List Char) : List Char :=
  ((l.dropWhile isWS).reverse.dropWhile isWS).reverse

/-- Exponent suffix of a JS numeric string: `[eE][+-]?digits` or empty.
Returns the exponent, or `none` when the remainder is malformed. -/
def parseExpSuffix : List Char → Option Int
  | [] => some 0
  | c :: rest =>
      if c = 'e' || c = 'E' then
        match rest with
        | '+' :: ds =>
            if isIntChars ds then some (digitsToNat ds : Int) else none
        | '-' :: ds =>
            if isIntChars ds then some (-(digitsToNat ds : Int)) else none
        | ds => if isIntChars ds then some (digitsToNat ds : Int) else none
      else none

/-- Mantissa of a JS numeric string: digits with an optional fraction,
or a bare `.digits`.  Returns its value and the unconsumed suffix. -/
def parseMantissa (l : List Char) : Option (ℚ × List Char) :=
  match takeDigits l with
  | (ds, '.' :: rest) =>
      match takeDigits rest with
      | (fs, rem) =>
          if ds.isEmpty && fs.isEmpty then none
          else some (decToRat ds fs, rem)
  | ([], _) => none
  | (ds, rem) => some ((digitsToNat ds : ℚ), rem)

/-- JS `Number(s)` for a string, on the decimal fragment: trimmed empty
string is `0`; optional sign, decimal mantissa, optional exponent;
anything else is NaN (`none`). -/
def jsStrToNum (s : String) : Option ℚ :=
  match trimChars s.data with
  | [] => some 0
  | l =>
      let sl : ℚ × List Char :=
        match l with
        | '+' :: r => (1, r)
        | '-' :: r => (-1, r)
        | r => (1, r)
      match parseMantissa sl.2 with
      | none => none
      | some (m, rem) =>
          (parseExpSuffix rem).map (fun e => sl.1 * m * (10 : ℚ) ^ e)

/-- JS `Number(v)` on a stored value (`ToNumber`): `null` is `0`,
`undefined` is NaN, strings parse as decimal or NaN. -/
def jsToNumber : Value → Option ℚ
  | .vnull => some 0
  | .undefV => none
  | .num q => some q
  | .str s => jsStrToNum s

/-- JS loose equality `l == r` restricted to stored values: `null` and
`undefined` equal (only) each other; same-type operands compare
natively; a number and a string compare numerically after `ToNumber`
on the string (NaN equals nothing). -/
def jsEqV : Value → Value → Bool
  | .vnull, .vnull => true
  | .vnull, .undefV => true
  | .undefV, .vnull => true
  | .undefV, .undefV => true
  | .num a, .num b => a = b
  | .str a, .str b => a = b
  | .num a, .str b =>
      match jsStrToNum b with
      | some q => a = q
      | none => false
  | .str a, .num b =>
      match jsStrToNum a with
      | some q => q = b
      | none => false
  | _, _ => false

/-- Coercion of an evaluation result to a value for `==`: JS converts a
boolean operand with `ToNumber` before comparing. -/
def toVal : JSV → Value
  | .ofV v => v
  | .ofB b => .num (if b then 1 else 0)

/-- JS `ToNumber` on an evaluation result. -/
def toNumJ : JSV → Option ℚ
  | .ofV v => jsToNumber v
  | .ofB b => some (if b then 1 else 0)

/-- JS truthiness of an evaluation result. -/
def truthy : JSV → Bool
  | .ofB b => b
  | .ofV .vnull => false
  | .ofV .undefV => false
  | .ofV (.num q) => q ≠ 0
  | .ofV (.str s) => s ≠ ""

/-- JS `toUpperCase` on the ASCII inputs of the interpreter. -/
def upperStr (s : String) : String := String.mk (s.data.map Char.toUpper)

/-- JS `toLowerCase` on the ASCII inputs of the interpreter. -/
def lowerStr (s : String) : String := String.mk (s.data.map Char.toLower)

/-- Tokens produced by `tokenize`. -/
inductive Tok where
  | str (s : String)
  | op (s : String)
  | sym (s : String)
  | word (s : String)
  deriving DecidableEq, Repr

/-- The `value` field of a token. -/
def tokValue : Tok → String
  | .str s => s
  | .op s => s
  | .sym s => s
  | .word s => s

/-- Scan a quoted span: a backslash escapes the following character;
an unterminated quote consumes to end of input. -/
def scanQuoted (q : Char) : List Char → String → String × List Char
  | [], buf => (buf, [])
  | '\\' :: c :: rest, buf => scanQuoted q rest (buf.push c)
  | c :: rest, buf =>
      if c = q then (buf, rest) else scanQuoted q rest (buf.push c)

/-- One tokenizer step at a time, with fuel (each step consumes at
least one character, so `length + 1` fuel never runs out). -/
def tokenizeGo : Nat → List Char → List Tok
  | 0, _ => []
  | _, [] => []
  | fuel + 1, c :: rest =>
      if isWS c then tokenizeGo fuel rest
      else if c = '\x27' || c = '"' || c = '\x60' then
        let p := scanQuoted c rest ""
        Tok.str p.1 :: tokenizeGo fuel p.2
      else if isPunct c then
        match rest with
        | c2 :: rest2 =>
            let two := String.mk [c, c2]
            if two = "<=" || two = ">=" || two = "<>" || two = "!=" then
              Tok.op two :: tokenizeGo fuel rest2
            else Tok.sym (String.mk [c]) :: tokenizeGo fuel rest
        | [] => Tok.sym (String.mk [c]) :: tokenizeGo fuel rest
      else
        let w := (c :: rest).takeWhile (fun x => !isWordStop x)
        let rest2 := (c :: rest).dropWhile (fun x => !isWordStop x)
        Tok.word (String.mk w) :: tokenizeGo fuel rest2

/-- The tokenizer of the simulator. -/
def tokenize (s : String) : List Tok := tokenizeGo (s.length + 1) s.data

/-- Strip one leading and one trailing backtick from a character list
(the regex replacement with the anchored backtick alternation). -/
def normTicksL (l : List Char) : List Char :=
  let l1 := match l with
            | '\x60' :: rest => rest
            | _ => l
  match l1.reverse with
  | '\x60' :: rest => rest.reverse
  | _ => l1

/-- `normalizeIdent`: strip one leading and one trailing backtick. -/
def normIdent (s : String) : String := String.mk (normTicksL s.data)

/-- WHERE expression trees.  `nullE` stands for the JS `null` node
returned on malformed input (evaluation of `null` yields `true`). -/
inductive Node where
  | nullE
  | lit (v : Value)
  | ident (name : String)
  | comp (op : String) (left right : Node)
  | and (l r : Node)
  | or (l r : Node)
  deriving DecidableEq, Repr

/-- The node built from a bare word in value position: numeric words
become numeric literals, every other word an identifier reference. -/
def valNode (w : String) : Node :=
  if isNumWord w then .lit (.num (numWordToRat w)) else .ident (normIdent w)

/-- `parseValue`: consume one token; strings become literals, words
numeric literals or identifiers, anything else the null node. -/
def parseValue : List Tok → Node × List Tok
  | [] => (.nullE, [])
  | t :: rest =>
      match t with
      | .str s => (.lit (.str s), rest)
      | .word w => (valNode w, rest)
      | _ => (.nullE, rest)

/-- The comparison operators accepted between two values. -/
def compOps : List String := ["=", "!=", "<>", ">", "<", ">=", "<=", "LIKE"]

/-- `parseComp`: a value, optionally followed by a comparison operator
and a second value; with no operator the bare value is returned and
the peeked token is pushed back. -/
def parseComp (tok : List Tok) : Node × List Tok :=
  let p := parseValue tok
  if p.1 = .nullE then (.nullE, p.2)
  else
    match p.2 with
    | [] => (p.1, [])
    | opTok :: rest2 =>
        let op := upperStr (tokValue opTok)
        if op ∈ compOps then
          let q := parseValue rest2
          (.comp op p.1 q.1, q.2)
        else (p.1, opTok :: rest2)

/-- The `while` loop of `parseAnd`, folding further conjuncts to the
left (fuel counts loop iterations; each consumes the AND token). -/
def parseAndLoop : Nat → Node → List Tok → Node × List Tok
  | 0, node, tok => (node, tok)
  | fuel + 1, node, tok =>
      match tok with
      | Tok.word w :: rest =>
          if upperStr w = "AND" then
            let p := parseComp rest
            parseAndLoop fuel (.and node p.1) p.2
          else (node, tok)
      | _ => (node, tok)

/-- `parseAnd`: a comparison followed by any number of AND conjuncts. -/
def parseAnd (fuel : Nat) (tok : List Tok) : Node × List Tok :=
  let p := parseComp tok
  parseAndLoop fuel p.1 p.2

/-- The `while` loop of `parseOr`. -/
def parseOrLoop : Nat → Node → List Tok → Node × List Tok
  | 0, node, tok => (node, tok)
  | fuel + 1, node, tok =>
      match tok with
      | Tok.word w :: rest =>
          if upperStr w = "OR" then
            let p := parseAnd fuel rest
            parseOrLoop fuel (.or node p.1) p.2
          else (node, tok)
      | _ => (node, tok)

/-- `parseOr`: an AND chain followed by any number of OR disjuncts. -/
def parseOr (fuel : Nat) (tok : List Tok) : Node × List Tok :=
  let p := parseAnd fuel tok
  parseOrLoop fuel p.1 p.2

/-- `parseWhere`: a missing or empty WHERE string yields the null tree
(which selects every row); otherwise parse the tokens by the
OR-over-AND grammar. -/
def parseWhere (o : Option String) : Node :=
  match o with
  | none => .nullE
  | some s =>
      if s = "" then .nullE
      else (parseOr ((tokenize s).length + 1) (tokenize s)).1

/-- Case-insensitive wildcard match for LIKE (percent matches any
sequence, underscore any single character), on lowercased character
lists; fuel is the total length of both lists plus one.  The source
builds a regex from the pattern; regex metacharacters other than the
two wildcards are not modelled. -/
def likeMatch : Nat → List Char → List Char → Bool
  | 0, _, _ => false
  | _ + 1, [], t => t.isEmpty
  | fuel + 1, '%' :: ps, t =>
      likeMatch fuel ps t ||
        (match t with
         | [] => false
         | _ :: ts => likeMatch fuel ('%' :: ps) ts)
  | fuel + 1, '_' :: ps, t =>
      match t with
      | [] => false
      | _ :: ts => likeMatch fuel ps ts
  | fuel + 1, p :: ps, t =>
      match t with
      | [] => false
      | c :: ts => p = c && likeMatch fuel ps ts

/-- Decimal rendering of a rational (JS number-to-string on the
reachable values: integers exactly; otherwise the shortest decimal
expansion up to 17 places; values with no finite decimal expansion
cannot arise from decimal literals and render as `num/den`). -/
def qToDec (q : ℚ) : String :=
  if q.den = 1 then toString q.num
  else
    match (List.range 17).findSome?
        (fun k =>
          let k := k + 1
          let m := q * (10 : ℚ) ^ k
          if m.den = 1 then some (k, m.num) else none) with
    | some (k, n) =>
        let sgn := if n < 0 then "-" else ""
        let ds := toString n.natAbs
        let ds := if ds.length ≥ k + 1 then ds
                  else String.mk (List.replicate (k + 1 - ds.length) '0') ++ ds
        sgn ++ String.mk (ds.data.take (ds.length - k)) ++ "." ++
          String.mk (ds.data.drop (ds.length - k))
    | none => toString q.num ++ "/" ++ toString q.den

/-- JS `String(x)` on an evaluation result. -/
def jsStringOf : JSV → String
  | .ofB true => "true"
  | .ofB false => "false"
  | .ofV .vnull => "null"
  | .ofV .undefV => "undefined"
  | .ofV (.num q) => qToDec q
  | .ofV (.str s) => s

/-- The relational comparison used by the comparison operators of
`evalExpr`: both sides are converted with `Number(_)` and NaN makes
every comparison false. -/
def numLt (l r : JSV) : Bool :=
  match toNumJ l, toNumJ r with
  | some a, some b => a < b
  | _, _ => false

/-- Number conversion `<=` with NaN making the comparison false. -/
def numLe (l r : JSV) : Bool :=
  match toNumJ l, toNumJ r with
  | some a, some b => a ≤ b
  | _, _ => false

/-- The comparison switch of `evalExpr`: equality is JS loose equality
(booleans converted by ToNumber), the four orderings coerce both
sides with `Number(_)`, LIKE is the wildcard match, and an unknown
operator yields false. -/
def jsCompare (op : String) (l r : JSV) : Bool :=
  if op = "=" then jsEqV (toVal l) (toVal r)
  else if op = "!=" || op = "<>" then !jsEqV (toVal l) (toVal r)
  else if op = ">" then numLt r l
  else if op = "<" then numLt l r
  else if op = ">=" then numLe r l
  else if op = "<=" then numLe l r
  else if op = "LIKE" then
    let pat := (lowerStr (jsStringOf r)).data
    let txt := (lowerStr (jsStringOf l)).data
    likeMatch (pat.length + txt.length + 1) pat txt
  else false

/-- `evalExpr`: evaluate a WHERE tree against one row.  The null tree
is true; literals and identifiers produce values; comparisons produce
booleans; AND/OR return one of their operands as JS does. -/
def evalNode (row : Row) : Node → JSV
  | .nullE => .ofB true
  | .lit v => .ofV v
  | .ident n => .ofV (rowGet row (normIdent n))
  | .comp op l r => .ofB (jsCompare op (evalNode row l) (evalNode row r))
  | .and l r =>
      let lv := evalNode row l
      if truthy lv then evalNode row r else lv
  | .or l r =>
      let lv := evalNode row l
      if truthy lv then lv else evalNode row r

/-- Row filter used by SELECT, UPDATE and DELETE. -/
def rowMatches (row : Row) (w : Node) : Bool := truthy (evalNode row w)

/-- JS `String.prototype.trim` on a string. -/
def trimStr (s : String) : String := String.mk (trimChars s.data)

/-- Strip every backtick (the global backtick replacement applied to
column names and ORDER BY columns). -/
def stripAllTicks (s : String) : String := String.mk (s.data.filter (fun c => c ≠ '\x60'))

/-- Worker for `parseIdentifiersList`: split on commas outside single
or double quotes, trim segments, drop empty segments. -/
def pilGo : List Char → Bool → Bool → List Char → List String
  | [], _, _, cur =>
      if (trimChars cur).isEmpty then [] else [String.mk (trimChars cur)]
  | ch :: rest, inS, inD, cur =>
      if ch = '\x27' && !inD then pilGo rest (!inS) inD (cur ++ [ch])
      else if ch = '"' && !inS then pilGo rest inS (!inD) (cur ++ [ch])
      else if ch = ',' && !inS && !inD then
        if (trimChars cur).isEmpty then pilGo rest inS inD []
        else String.mk (trimChars cur) :: pilGo rest inS inD []
      else pilGo rest inS inD (cur ++ [ch])

/-- The clause splitter: comma-separated list, respecting quotes. -/
def parseIdentifiersList (s : String) : List String := pilGo s.data false false []

/-- Core of the literal parser on the trimmed character list: NULL
(case-insensitive), quoted strings, unsigned integers, unsigned
decimals, and bare words (backticks stripped) in this order. -/
def parseLitCore (l : List Char) : Value :=
  if l.map Char.toUpper = ['N', 'U', 'L', 'L'] then .vnull
  else if (l.head? = some '\x27' && l.getLast? = some '\x27') ||
          (l.head? = some '"' && l.getLast? = some '"') then
    .str (String.mk ((l.drop 1).dropLast))
  else if isIntChars l then .num (digitsToNat l : ℚ)
  else if isDecChars l then
    .num (match takeDigits l with
          | (ds, '.' :: rest) => decToRat ds (takeDigits rest).1
          | (ds, _) => (digitsToNat ds : ℚ))
  else .str (String.mk (normTicksL l))

/-- The literal parser (`parseLiteral`): trims, then the core. -/
def parseLiteral (token : String) : Value := parseLitCore (trimChars token.data)

/-- Worker for `parseValuesList`: collect the parenthesised groups by
depth counting (the JS depth counter is a plain integer and may go
negative on unbalanced input). -/
def pvlGo : List Char → Int → List Char → List (List Char)
  | [], _, _ => []
  | ch :: rest, depth, cur =>
      if ch = '(' then
        if depth > 0 then pvlGo rest (depth + 1) (cur ++ [ch])
        else pvlGo rest (depth + 1) cur
      else if ch = ')' then
        if depth - 1 > 0 then pvlGo rest (depth - 1) (cur ++ [ch])
        else cur :: pvlGo rest (depth - 1) []
      else if depth > 0 then pvlGo rest depth (cur ++ [ch])
      else pvlGo rest depth cur

/-- Parse the VALUES clause: each group split on commas and each
segment parsed as a literal after trimming. -/
def parseValuesList (s : String) : List (List Value) :=
  (pvlGo s.data 0 []).map
    (fun r => (parseIdentifiersList (String.mk r)).map (fun v => parseLiteral (trimStr v)))

/-- A column definition: name, type label, auto-increment flag and
primary-key flag. -/
structure Column where
  name : String
  type : String
  auto : Bool
  pk : Bool
  deriving DecidableEq, Repr

/-- A table: ordered column definitions and ordered rows. -/
structure Table where
  columns : List Column
  rows : List Row
  deriving DecidableEq, Repr

/-- The engine state threaded through every executor.  The version,
client label and statement history fields of the source are constants
or UI bookkeeping that the executors never read, and are omitted. -/
structure Engine where
  databases : List (String × List (String × Table))
  currentDB : Option String
  autoinc : List (String × Nat)
  deriving DecidableEq, Repr

/-- `ensureDB`: the error text when no database is selected or the
selected database is unknown, `none` when the check passes. -/
def ensureDB (e : Engine) : Option String :=
  match e.currentDB with
  | none => some "ERROR: No database selected. Use USE <dbname>;"
  | some db =>
      match alookup e.databases db with
      | none => some ("ERROR: Unknown database \x27" ++ db ++ "\x27.")
      | some _ => none

/-- The auto-increment counter key for one (database, table, column). -/
def autoKey (db tbl col : String) : String := db ++ "." ++ tbl ++ "." ++ col

/-- Auto-increment counter read: an uninitialised counter reads as 1
(the `?? 1` fallback). -/
def cnt (auto : List (String × Nat)) (k : String) : Nat := (alookup auto k).getD 1

/-- Build the row object for one value tuple.  With an explicit column
list the tuple arity must equal the list arity; positionally, excess
values are rejected; unspecified columns default to null. -/
def buildRow (allCols : List String) (colsPart : Option (List String))
    (vals : List Value) : Except String Row :=
  match colsPart with
  | some cs =>
      if vals.length ≠ cs.length then
        .error "ERROR: Column count doesn\x27t match value count."
      else
        .ok ((cs.zip vals).foldl (fun r p => aset r p.1 p.2)
          (allCols.foldl (fun r c => aset r c .vnull) []))
  | none =>
      if allCols.length < vals.length then .error "ERROR: Too many values."
      else
        .ok (allCols.enum.foldl (fun r p => aset r p.2 (vals.getD p.1 .vnull)) [])

/-- Result of applying the auto-increment pass to one built row: the
updated row, the updated counter table, and the issued (key, value)
pairs in issue order (the issued list is an audit trail mirroring the
two assignments of the source loop; the source does not store it). -/
structure AutoOut where
  row : Row
  auto : List (String × Nat)
  issued : List (String × Nat)
  deriving Repr

/-- One iteration of the auto-increment loop of `insertInto`: when the
cell of the auto column is null or undefined it receives the counter
value for its key and the counter advances by one. -/
def autoStep (db tbl : String) (st : AutoOut) (col : String) : AutoOut :=
  let v := rowGet st.row col
  if v = .vnull || v = .undefV then
    let key := autoKey db tbl col
    let n := cnt st.auto key
    { row := aset st.row col (.num (n : ℚ)),
      auto := aset st.auto key (n + 1),
      issued := st.issued ++ [(key, n)] }
  else st

/-- The auto-increment loop of `insertInto` over all auto columns. -/
def applyAutoCols (db tbl : String) (autokeys : List String) (row : Row)
    (auto : List (String × Nat)) : AutoOut :=
  autokeys.foldl (autoStep db tbl) ⟨row, auto, []⟩

/-- Result of the tuple loop of `insertInto`. -/
structure InsOut where
  auto : List (String × Nat)
  rows : List Row
  affected : Nat
  issued : List (String × Nat)
  err : Option String
  deriving Repr

/-- The tuple loop of `insertInto`: build each row, stopping with an
error on the first malformed tuple; rows built before the error stay
appended and their counter updates stay applied (the source mutates
the table and the counters in place inside the loop). -/
def insertLoop (db tbl : String) (allCols : List String)
    (colsPart : Option (List String)) (autokeys : List String)
    (auto : List (String × Nat)) : List (List Value) → InsOut
  | [] => ⟨auto, [], 0, [], none⟩
  | t :: ts =>
      match buildRow allCols colsPart t with
      | .error e => ⟨auto, [], 0, [], some e⟩
      | .ok row =>
          let a := applyAutoCols db tbl autokeys row auto
          let rest := insertLoop db tbl allCols colsPart autokeys a.auto ts
          ⟨rest.auto, a.row :: rest.rows, rest.affected + 1,
           a.issued ++ rest.issued, rest.err⟩

/-- Result of one executor call: the (possibly mutated) engine, the
output text, and the auto-increment audit trail. -/
structure ExecOut where
  engine : Engine
  out : String
  issued : List (String × Nat)
  deriving Repr

/-- The executor body of `insertInto` after the statement regex has
been matched: existence checks, then the tuple loop, writing back the
appended rows and updated counters even when the loop errored.  An
empty column-list capture is falsy in the source and treated as no
column list (positional insert). -/
def insertExec (e : Engine) (tableName : String) (colsRaw : Option String)
    (valsStr : String) : ExecOut :=
  match ensureDB e with
  | some err => ⟨e, err, []⟩
  | none =>
      let db := e.currentDB.getD ""
      let tables := (alookup e.databases db).getD []
      match alookup tables tableName with
      | none => ⟨e, "ERROR: Unknown table \x27" ++ tableName ++ "\x27.", []⟩
      | some table =>
          let colsPart := colsRaw.bind
            (fun s =>
              if s = "" then none
              else some ((parseIdentifiersList s).map
                (fun c => normIdent (stripAllTicks c))))
          let valuesRows := parseValuesList valsStr
          let autokeys := (table.columns.filter (·.auto)).map (·.name)
          let allCols := table.columns.map (·.name)
          let r := insertLoop db tableName allCols colsPart autokeys e.autoinc valuesRows
          let e2 : Engine :=
            { e with
              databases := aset e.databases db
                (aset tables tableName { table with rows := table.rows ++ r.rows }),
              autoinc := r.auto }
          match r.err with
          | some msg => ⟨e2, msg, r.issued⟩
          | none =>
              ⟨e2, "Query OK, " ++ toString r.affected ++ " row(s) affected", r.issued⟩

/-- Identifier characters of the statement regexes (`[A-Za-z0-9_]`). -/
def isIdentChar (c : Char) : Bool := (c.isAlpha && c.toNat < 128) || c.isDigit || c = '_'

/-- Case-insensitive keyword match consuming the keyword. -/
def matchKw (kw : List Char) (l : List Char) : Option (List Char) :=
  if (l.take kw.length).map Char.toUpper = kw then some (l.drop kw.length) else none

/-- Require at least one whitespace character, then skip the run. -/
def dropWS1 (l : List Char) : Option (List Char) :=
  match l with
  | c :: rest => if isWS c then some (rest.dropWhile isWS) else none
  | [] => none

/-- Deterministic reading of the INSERT statement regex at one start
position (INSERT INTO, optional backticked table name, an optional
parenthesised column list, VALUES, rest of statement).  The regex
engine's backtracking beyond this greedy reading cannot produce a
match at a position where this reading fails with the keywords
present. -/
def parseInsCore (stmt : List Char) : Option (String × Option String × String) :=
  (matchKw "INSERT".data stmt).bind fun l =>
  (dropWS1 l).bind fun l =>
  (matchKw "INTO".data l).bind fun l =>
  (dropWS1 l).bind fun l =>
    let l := match l with | '\x60' :: r => r | _ => l
    let tname := l.takeWhile isIdentChar
    if tname.isEmpty then none
    else
      let l := l.dropWhile isIdentChar
      let l := match l with | '\x60' :: r => r | _ => l
      let l := l.dropWhile isWS
      let p : Option String × List Char :=
        match l with
        | '(' :: r =>
            match r.dropWhile (fun c => c ≠ ')') with
            | ')' :: r3 => (some (String.mk (r.takeWhile (fun c => c ≠ ')'))), r3)
            | _ => (none, l)
        | _ => (none, l)
      (matchKw "VALUES".data (p.2.dropWhile isWS)).bind fun l =>
        some (String.mk tname, p.1, String.mk (l.dropWhile isWS))

/-- The unanchored regex search: try every start position left to
right (the JS regex has no leading anchor). -/
def parseInsSearch : Nat → List Char → Option (String × Option String × String)
  | 0, _ => none
  | fuel + 1, l =>
      match parseInsCore l with
      | some x => some x
      | none =>
          match l with
          | [] => none
          | _ :: rest => parseInsSearch fuel rest

/-- Match the INSERT statement regex anywhere in the statement text. -/
def parseInsStmt (stmt : String) : Option (String × Option String × String) :=
  parseInsSearch (stmt.length + 1) stmt.data

/-- `insertInto` on the raw statement text: selected-database check,
then the statement regex, then the executor body. -/
def insertInto (e : Engine) (stmt : String) : ExecOut :=
  match ensureDB e with
  | some err => ⟨e, err, []⟩
  | none =>
      match parseInsStmt stmt with
      | none => ⟨e, "ERROR: Syntax: INSERT INTO <table> [(cols,...)] VALUES (...);", []⟩
      | some (t, c, v) => insertExec e t c v

/-- The raw JS relational comparison `va < vb` used by ORDER BY: two
strings compare lexicographically, otherwise both sides convert to
numbers and NaN makes the comparison false. -/
def jsRelLt (va vb : Value) : Bool :=
  match va, vb with
  | .str a, .str b => a < b
  | _, _ =>
      match jsToNumber va, jsToNumber vb with
      | some a, some b => a < b
      | _, _ => false

/-- JS `x == null` (true for null and undefined). -/
def isNullish : Value → Bool
  | .vnull => true
  | .undefV => true
  | _ => false

/-- The ORDER BY comparator: nulls first regardless of direction, then
the relational comparison, negated for DESC. -/
def sortCmp (orderCol : String) (asc : Bool) (a b : Row) : Int :=
  let va := rowGet a orderCol
  let vb := rowGet b orderCol
  if isNullish va && isNullish vb then 0
  else if isNullish va then -1
  else if isNullish vb then 1
  else if jsRelLt va vb then (if asc then -1 else 1)
  else if jsRelLt vb va then (if asc then 1 else -1)
  else 0

/-- ORDER BY sorting; `Array.prototype.sort` is stable and is modelled
by a stable merge sort over the comparator. -/
def sortRows (orderCol : String) (asc : Bool) (rows : List Row) : List Row :=
  rows.mergeSort (fun a b => sortCmp orderCol asc a b ≤ 0)

/-- The row pipeline of `selectFrom`: filter by WHERE, then sort, then
apply OFFSET (skipped when zero, as the source treats 0 as falsy) and
LIMIT. -/
def selectRows (table : Table) (whereStr : Option String)
    (orderBy : Option (String × Bool)) (limit : Option Nat) (offset : Nat) : List Row :=
  let w := parseWhere whereStr
  let rows := table.rows.filter (fun r => rowMatches r w)
  let rows :=
    match orderBy with
    | some (col, asc) => sortRows (normIdent (stripAllTicks col)) asc rows
    | none => rows
  let rows := if offset ≠ 0 then rows.drop offset else rows
  match limit with
  | some n => rows.take n
  | none => rows

/-- Rendering of one cell: null and undefined render as the text NULL,
other values by JS string conversion. -/
def renderCell (r : Row) (c : String) : String :=
  match rowGet r c with
  | .vnull => "NULL"
  | .undefV => "NULL"
  | v => jsStringOf (.ofV v)

/-- The column width of the ASCII grid: seeded with the maximum of the
header length and 3, then widened to the longest rendered value. -/
def colWidth (c : String) (rows : List Row) : Nat :=
  rows.foldl (fun w r => max w (renderCell r c).length) (max c.length 3)

/-- JS `String.prototype.padEnd`. -/
def padEnd (s : String) (w : Nat) : String :=
  s ++ String.mk (List.replicate (w - s.length) ' ')

/-- The `+---+` rule line of the grid. -/
def gridRule (cols : List String) (rows : List Row) : String :=
  "+" ++ String.intercalate "+"
    (cols.map (fun c => String.mk (List.replicate (colWidth c rows + 2) '-'))) ++ "+"

/-- The header name line of the grid: every cell is one space, the
padded label, one space. -/
def gridHeader (cols : List String) (rows : List Row) : String :=
  "|" ++ String.intercalate "|"
    (cols.map (fun c => " " ++ padEnd c (colWidth c rows) ++ " ")) ++ "|"

/-- One body line of the grid: every cell is one space, the padded
rendered value, one space. -/
def gridRowLine (cols : List String) (rows : List Row) (r : Row) : String :=
  "|" ++ String.intercalate "|"
    (cols.map (fun c => " " ++ padEnd (renderCell r c) (colWidth c rows) ++ " ")) ++ "|"

/-- One SET segment matched against the (unanchored) assignment
pattern at a fixed start: optional backtick, identifier run, optional
backtick, spaces, an equals sign, then the value text (leading spaces
dropped, but a run of only spaces leaves its last space as value). -/
def assignAt (l : List Char) : Option (String × String) :=
  let l1 := match l with | '\x60' :: r => r | _ => l
  let idc := l1.takeWhile isIdentChar
  if idc.isEmpty then none
  else
    let l2 := l1.dropWhile isIdentChar
    let l2 := match l2 with | '\x60' :: r => r | _ => l2
    match l2.dropWhile isWS with
    | '=' :: r =>
        match r.dropWhile isWS with
        | [] =>
            match r.reverse with
            | [] => none
            | c :: _ => some (String.mk idc, String.mk [c])
        | v => some (String.mk idc, String.mk v)
    | _ => none

/-- The regex search for the assignment pattern: try every start
position left to right. -/
def findAssign : Nat → List Char → Option (String × String)
  | 0, _ => none
  | _, [] => none
  | fuel + 1, l =>
      match assignAt l with
      | some x => some x
      | none =>
          match l with
          | [] => none
          | _ :: rest => findAssign fuel rest

/-- Parse one SET segment into an assignment, or `none` when the
segment does not contain the col=value shape anywhere. -/
def parseAssignment (s : String) : Option (String × Value) :=
  (findAssign (s.length + 1) s.data).map (fun p => (normIdent p.1, parseLiteral p.2))

/-- The assignments of an UPDATE: malformed segments are dropped. -/
def updateAssigns (segs : List String) : List (String × Value) :=
  segs.filterMap parseAssignment

/-- Apply every assignment to a row, left to right. -/
def applyAssigns (assigns : List (String × Value)) (r : Row) : Row :=
  assigns.foldl (fun r a => aset r a.1 a.2) r

/-- The row loop of `updateTable`: every matching row receives all
assignments and is counted, every other row is untouched. -/
def updateApply (rows : List Row) (assigns : List (String × Value)) (w : Node) :
    List Row × Nat :=
  (rows.map (fun r => if rowMatches r w then applyAssigns assigns r else r),
   (rows.filter (fun r => rowMatches r w)).length)

/-- The executor body of `updateTable` after the statement regex: split
the SET clause, parse each segment, apply to matching rows. -/
def updateCore (rows : List Row) (setStr : String) (whereStr : Option String) :
    List Row × Nat :=
  updateApply rows (updateAssigns (parseIdentifiersList setStr)) (parseWhere whereStr)

/-- The executor body of `deleteFrom`: keep the rows that do not match
the filter; the counters are untouched. -/
def deleteExec (e : Engine) (tableName : String) (whereStr : Option String) : ExecOut :=
  match ensureDB e with
  | some err => ⟨e, err, []⟩
  | none =>
      let db := e.currentDB.getD ""
      let tables := (alookup e.databases db).getD []
      match alookup tables tableName with
      | none => ⟨e, "ERROR: Unknown table \x27" ++ tableName ++ "\x27.", []⟩
      | some table =>
          let w := parseWhere whereStr
          let keep := table.rows.filter (fun r => !rowMatches r w)
          ⟨{ e with
              databases := aset e.databases db
                (aset tables tableName { table with rows := keep }) },
           "Query OK, " ++ toString (table.rows.length - keep.length) ++ " row(s) affected",
           []⟩

/-- Row-mutating statements considered by the auto-increment claims. -/
inductive SqlOp where
  | ins (tableName : String) (colsRaw : Option String) (valsStr : String)
  | del (tableName : String) (whereStr : Option String)

/-- Run one statement. -/
def runOp (e : Engine) : SqlOp → ExecOut
  | .ins t c v => insertExec e t c v
  | .del t w => deleteExec e t w

/-- Run a statement sequence, concatenating the auto-increment audit
trails. -/
def runOps (e : Engine) : List SqlOp → Engine × List (String × Nat)
  | [] => (e, [])
  | op :: ops =>
      let r := runOp e op
      let rest := runOps r.engine ops
      (rest.1, r.issued ++ rest.2)

/-- The values issued for one counter key, in issue order. -/
def issuedFor (k : String) (iss : List (String × Nat)) : List Nat :=
  (iss.filter (fun p => p.1 = k)).map (·.2)

/-- Issue-trace invariant between two counter tables: for every key,
the issued values are a consecutive run starting at the old counter
reading, and the new counter reading is the old one plus the number of
issues. -/
def IssueInv (m m' : List (String × Nat)) (iss : List (String × Nat)) : Prop :=
  ∀ k, ∃ n, issuedFor k iss = List.range' (cnt m k) n ∧
            cnt m' k = cnt m k + n

/-- Arity check of one value tuple (the validation the insert loop
performs on each tuple before building its row). -/
def tupleOk (allCols : List String) (colsPart : Option (List String))
    (t : List Value) : Bool :=
  match colsPart with
  | some cs => t.length = cs.length
  | none => t.length ≤ allCols.length

/-- The arity error message of the insert loop for each of its two
branches. -/
def arityMsg : Option (List String) → String
  | some _ => "ERROR: Column count doesn\x27t match value count."
  | none => "ERROR: Too many values."

/-- Numeric key of a row under an order column, for rows whose value
in that column is numeric (a proof-side device for the ORDER BY
theorems). -/
def qkeyOf (col : String) (r : Row) : ℚ :=
  match rowGet r col with
  | .num q => q
  | _ => 0

/-- Text key of a row under an order column, for rows whose value in
that column is text (a proof-side device for the ORDER BY theorems). -/
def skeyOf (col : String) (r : Row) : String :=
  match rowGet r col with
  | .str s => s
  | _ => ""

/-- Modelled from the spec wording of claim C2: the single coercion
rule (attempt numeric comparison if both operands parse as numbers,
else compare as text), for comparison against the code's equality. -/
def specSingleCoercionEq (v w : Value) : Bool :=
  match jsToNumber v, jsToNumber w with
  | some a, some b => a = b
  | _, _ => jsStringOf (.ofV v) = jsStringOf (.ofV w)

/-- The amended description of loose equality (claim C2 amended):
coercion happens only across types — a number and a text compare
numerically when the text parses as a number and are unequal
otherwise; two texts compare textually even when both parse as
numbers; two numbers compare numerically; null and undefined equal
only each other. -/
def looseEqRule (v w : Value) : Bool :=
  match v, w with
  | .num a, .num b => a = b
  | .str a, .str b => a = b
  | .num a, .str t =>
      match jsStrToNum t with
      | some q => a = q
      | none => false
  | .str t, .num b =>
      match jsStrToNum t with
      | some q => q = b
      | none => false
  | x, y => isNullish x && isNullish y

/-- Modelled from the spec wording of claim C8: the rendered column
width as the maximum of the header label length and the longest
rendered value length, for comparison against the code's width. -/
def specColWidth (c : String) (rows : List Row) : Nat :=
  max c.length ((rows.map (fun r => (renderCell r c).length)).foldr max 0)

/-- A concrete store: one database, one three-column table whose first
column is AUTO_INCREMENT, and its counter initialised at 1. -/
def sampleEngine : Engine :=
  { databases :=
      [("d",
        [("t",
          { columns :=
              [⟨"id", "INT", true, true⟩, ⟨"a", "INT", false, false⟩,
               ⟨"b", "INT", false, false⟩],
            rows := [] })])],
    currentDB := some "d",
    autoinc := [("d.t.id", 1)] }

/-- A bare word in value position never parses to the null node. -/
@[simp] theorem valNode_ne_nullE (w : String) : ¬ valNode w = Node.nullE := by
  unfold valNode
  split <;> simp

/-- C4: in the WHERE grammar AND binds tighter than OR and both are
left-associative.  First conjunct: the claim's shape `a=1 OR a=2 AND
b=3` parses to `or(comp(a,1), and(comp(a,2), comp(b,3)))`.  Second and
third conjuncts: on the token lists of `x1=y1 OR x2=y2 OR x3=y3` and
`x1=y1 AND x2=y2 AND x3=y3`, for arbitrary words and any sufficient
fuel, the parser returns the left-leaning tree. -/
theorem C4_where_precedence_and_assoc :
    (parseWhere (some "a=1 OR a=2 AND b=3") =
      .or (.comp "=" (.ident "a") (.lit (.num 1)))
        (.and (.comp "=" (.ident "a") (.lit (.num 2)))
          (.comp "=" (.ident "b") (.lit (.num 3)))))
    ∧ (∀ (fuel : Nat) (x1 y1 x2 y2 x3 y3 : String),
        parseOr (fuel + 12)
          [Tok.word x1, Tok.sym "=", Tok.word y1, Tok.word "OR",
           Tok.word x2, Tok.sym "=", Tok.word y2, Tok.word "OR",
           Tok.word x3, Tok.sym "=", Tok.word y3] =
        (.or (.or (.comp "=" (valNode x1) (valNode y1))
                  (.comp "=" (valNode x2) (valNode y2)))
             (.comp "=" (valNode x3) (valNode y3)), []))
    ∧ (∀ (fuel : Nat) (x1 y1 x2 y2 x3 y3 : String),
        parseOr (fuel + 12)
          [Tok.word x1, Tok.sym "=", Tok.word y1, Tok.word "AND",
           Tok.word x2, Tok.sym "=", Tok.word y2, Tok.word "AND",
           Tok.word x3, Tok.sym "=", Tok.word y3] =
        (.and (.and (.comp "=" (valNode x1) (valNode y1))
                    (.comp "=" (valNode x2) (valNode y2)))
              (.comp "=" (valNode x3) (valNode y3)), [])) := by
  refine ⟨by decide, ?_, ?_⟩ <;>
    · intro fuel x1 y1 x2 y2 x3 y3
      simp +decide [parseOr, parseAnd, parseComp, parseValue, parseAndLoop,
        parseOrLoop, compOps, tokValue]

/-- C5: a bare word in a WHERE value position that does not match the
unsigned numeric pattern always becomes an identifier node (a column
lookup), never an implicit string literal; in particular
`course=BSIT` compares the course value against the row's value for a
column named BSIT, so it is false on a row where course is the text
BSIT and no BSIT column exists. -/
theorem C5_bare_word_is_identifier :
    (∀ (w : String) (rest : List Tok), isNumWord w = false →
      parseValue (Tok.word w :: rest) = (Node.ident (normIdent w), rest))
    ∧ parseWhere (some "course=BSIT") =
        .comp "=" (.ident "course") (.ident "BSIT")
    ∧ evalNode [("course", Value.str "BSIT")] (parseWhere (some "course=BSIT")) =
        .ofB false := by
  refine ⟨?_, by decide, by decide⟩
  intro w rest h
  simp [parseValue, valNode, h]

/-- Witness for C5 at the word BSIT. -/
theorem C5_bare_word_is_identifier_witness :
    isNumWord "BSIT" = false ∧
    parseValue [Tok.word "BSIT"] = (Node.ident "BSIT", []) :=
  ⟨by decide,
   (C5_bare_word_is_identifier.1 "BSIT" [] (by decide)).trans (by decide)⟩

/-- C7: the four ordering comparisons coerce both operands with
`Number(_)` and are false whenever either side coerces to NaN; when
both sides coerce to numbers the comparison is the numeric one. -/
theorem C7_ordering_coerces_numeric :
    ∀ l r : JSV,
      ((toNumJ l = none ∨ toNumJ r = none) →
        jsCompare "<" l r = false ∧ jsCompare ">" l r = false ∧
        jsCompare "<=" l r = false ∧ jsCompare ">=" l r = false)
      ∧ (∀ a b : ℚ, toNumJ l = some a → toNumJ r = some b →
          jsCompare "<" l r = decide (a < b) ∧
          jsCompare ">" l r = decide (b < a) ∧
          jsCompare "<=" l r = decide (a ≤ b) ∧
          jsCompare ">=" l r = decide (b ≤ a)) := by
  intro l r
  constructor
  · intro h
    rcases h with h | h <;>
      refine ⟨?_, ?_, ?_, ?_⟩ <;> simp +decide [jsCompare, numLt, numLe, h]
  · intro a b ha hb
    refine ⟨?_, ?_, ?_, ?_⟩ <;> simp +decide [jsCompare, numLt, numLe, ha, hb]

/-- Witness for C7: a non-numeric text operand makes every ordering
comparison false, and two numeric operands compare numerically. -/
theorem C7_ordering_coerces_numeric_witness :
    toNumJ (JSV.ofV (Value.str "abc")) = none ∧
    jsCompare "<" (JSV.ofV (Value.str "abc")) (JSV.ofV (Value.num 1)) = false ∧
    jsCompare ">=" (JSV.ofV (Value.str "abc")) (JSV.ofV (Value.num 1)) = false ∧
    jsCompare "<" (JSV.ofV (Value.num 2)) (JSV.ofV (Value.num 10)) = true :=
  ⟨by decide,
   ((C7_ordering_coerces_numeric _ _).1 (Or.inl (by decide))).1,
   ((C7_ordering_coerces_numeric _ _).1 (Or.inl (by decide))).2.2.2,
   ((C7_ordering_coerces_numeric _ _).2 2 10 (by decide) (by decide)).1.trans
     (by decide)⟩

/-- C2 counterexample: the operands text 1.0 (stored in the row) and
text 1 (a quoted WHERE literal) both parse as the number one, so the
claimed single coercion rule makes them equal, but the interpreter
compares two strings textually and returns false. -/
theorem C2_counterexample :
    jsStrToNum "1.0" = some 1 ∧ jsStrToNum "1" = some 1 ∧
    evalNode [("a", Value.str "1.0")]
      (Node.comp "=" (.ident "a") (.lit (.str "1"))) = .ofB false ∧
    specSingleCoercionEq (Value.str "1.0") (Value.str "1") = true := by
  refine ⟨?_, ?_, by decide, ?_⟩ <;>
    simp +decide [jsStrToNum, trimChars, parseMantissa, parseExpSuffix,
      decToRat, digitsToNat, takeDigits, isWS, isIntChars, List.dropWhile,
      specSingleCoercionEq, jsToNumber]

/-- C2 amended: loose equality coerces only across types (a number and
a text compare numerically through `Number(text)`, two texts compare
textually even when both are numeric, null and undefined equal only
each other), and the negated operators are exact complements. -/
theorem C2_amended_loose_equality :
    (∀ v w : Value, jsEqV v w = looseEqRule v w)
    ∧ (∀ l r : JSV, jsCompare "!=" l r = !jsCompare "=" l r ∧
        jsCompare "<>" l r = !jsCompare "=" l r) := by
  constructor
  · intro v w
    cases v <;> cases w <;> simp [jsEqV, looseEqRule, isNullish]
  · intro l r
    constructor <;> simp +decide [jsCompare]

/-- Folding a maximum over a list equals the maximum of the seed and
the fold of the mapped list. -/
theorem foldl_max_eq (f : Row → Nat) :
    ∀ (l : List Row) (a : Nat),
      l.foldl (fun w r => max w (f r)) a = max a ((l.map f).foldr max 0)
  | [], a => by simp
  | x :: xs, a => by
    rw [List.foldl_cons, foldl_max_eq f xs (max a (f x))]
    simp [Nat.max_assoc]

/-- C8 counterexample: a one-character column name with a
one-character value renders at width 3 (the code seeds the width with
`max(header, 3)`), not at the claimed `max(header, longest value) = 1`;
the header cell is rendered three wide plus the two margin spaces. -/
theorem C8_counterexample :
    colWidth "a" [[("a", Value.str "x")]] = 3 ∧
    specColWidth "a" [[("a", Value.str "x")]] = 1 ∧
    gridHeader ["a"] [[("a", Value.str "x")]] = "| a   |" ∧
    gridRowLine ["a"] [[("a", Value.str "x")]] [("a", Value.str "x")] =
      "| x   |" := by
  refine ⟨by decide, by decide, by decide, by decide⟩

/-- C8 amended: the rendered width of a column is the maximum of 3,
the header label length, and the longest rendered value length (null
rendering as the text NULL), with one space of margin per side. -/
theorem C8_amended_width_floor :
    ∀ (c : String) (rows : List Row),
      colWidth c rows = max 3 (specColWidth c rows) := by
  intro c rows
  unfold colWidth specColWidth
  rw [foldl_max_eq]
  rw [Nat.max_comm c.length 3, Nat.max_assoc]

/-- C9 counterexample: the minus-led token `-5` followed by a backtick
is parsed to the text `-5`, not returned unchanged: the bare-word
branch strips a trailing backtick. -/
theorem C9_counterexample :
    parseLiteral "-5\x60" = Value.str "-5" ∧
    Value.str "-5" ≠ Value.str "-5\x60" := by
  refine ⟨by decide, by decide⟩

/-- C9 amended: every trimmed literal token beginning with a minus
sign is returned as a text value — the token itself with one leading
and one trailing backtick stripped (for a minus-led token only a
trailing backtick can be present) — never as a number. -/
theorem C9_amended_minus_is_text :
    ∀ t : String, trimStr t = t → t.data.head? = some '-' →
      parseLiteral t = .str (String.mk (normTicksL t.data)) := by
  intro t h1 h2
  have ht : trimChars t.data = t.data := congrArg String.data h1
  unfold parseLiteral
  rw [ht]
  rcases hc : t.data with _ | ⟨c, cs⟩
  · rw [hc] at h2; simp at h2
  · rw [hc] at h2
    simp only [List.head?] at h2
    obtain rfl : c = '-' := by injection h2
    unfold parseLitCore
    rw [if_neg, if_neg, if_neg, if_neg]
    · simp +decide [isDecChars, takeDigits]
    · simp +decide [isIntChars, takeDigits]
    · simp +decide
    · simp +decide

/-- Witness for C9 at the token -5. -/
theorem C9_amended_minus_is_text_witness :
    trimStr "-5" = "-5" ∧ parseLiteral "-5" = Value.str "-5" :=
  ⟨by decide,
   (C9_amended_minus_is_text "-5" (by decide) (by decide)).trans (by decide)⟩

/-- C10: a SET segment in which the assignment pattern matches nowhere
is silently discarded (removing it from the segment list changes
nothing), the affected-row count is the number of rows matching the
filter regardless of the assignments, and on the claim's concrete
shape the malformed middle segment changes nothing while both
well-formed assignments apply and the matching row is counted. -/
theorem C10_update_discards_malformed_set :
    (∀ (rows : List Row) (wh : Node) (segs1 segs2 : List String) (bad : String),
      parseAssignment bad = none →
      updateApply rows (updateAssigns (segs1 ++ bad :: segs2)) wh =
        updateApply rows (updateAssigns (segs1 ++ segs2)) wh)
    ∧ (∀ (rows : List Row) (assigns : List (String × Value)) (wh : Node),
        (updateApply rows assigns wh).2 =
          (rows.filter (fun r => rowMatches r wh)).length)
    ∧ updateCore [[("a", Value.num 1)], [("a", Value.num 2)]]
        "b=5, garbage, c=7" (some "a=1") =
      ([[("a", Value.num 1), ("b", Value.num 5), ("c", Value.num 7)],
        [("a", Value.num 2)]], 1) := by
  refine ⟨?_, ?_, by decide⟩
  · intro rows wh s1 s2 bad h
    unfold updateAssigns
    rw [List.filterMap_append, List.filterMap_cons_none h, ← List.filterMap_append]
  · intro rows assigns wh
    rfl

/-- Witness for C10 at a segment with no equals sign. -/
theorem C10_update_discards_malformed_set_witness :
    parseAssignment "garbage" = none ∧
    updateApply [[("a", Value.num 1)]]
        (updateAssigns (["b=5"] ++ "garbage" :: ["c=7"])) (parseWhere (some "a=1")) =
      updateApply [[("a", Value.num 1)]]
        (updateAssigns (["b=5"] ++ ["c=7"])) (parseWhere (some "a=1")) :=
  ⟨by decide,
   C10_update_discards_malformed_set.1 _ _ ["b=5"] ["c=7"] "garbage" (by decide)⟩

/-- C6 counterexample: two failure modes, each with two unequal
order-column values (so no ties).  First, a null row and a numeric
row: ascending and descending ORDER BY return the same order because
the comparator puts nulls first in both directions.  Second, two
non-null rows of mixed type (a number and a non-numeric text): the
relational comparison is false both ways, the comparator returns 0 for
the pair in both directions, and the stable sort keeps the original
order both ways.  In both cases descending is not the reverse of
ascending. -/
theorem C6_counterexample :
    (rowGet [("a", Value.vnull)] "a" ≠ rowGet [("a", Value.num 1)] "a" ∧
     sortRows "a" false [[("a", Value.vnull)], [("a", Value.num 1)]] ≠
       (sortRows "a" true [[("a", Value.vnull)], [("a", Value.num 1)]]).reverse) ∧
    (rowGet [("a", Value.num 1)] "a" ≠ rowGet [("a", Value.str "abc")] "a" ∧
     isNullish (rowGet [("a", Value.num 1)] "a") = false ∧
     isNullish (rowGet [("a", Value.str "abc")] "a") = false ∧
     sortRows "a" false [[("a", Value.num 1)], [("a", Value.str "abc")]] ≠
       (sortRows "a" true [[("a", Value.num 1)], [("a", Value.str "abc")]]).reverse) := by
  have hd : sortRows "a" false [[("a", Value.vnull)], [("a", Value.num 1)]] =
      [[("a", Value.vnull)], [("a", Value.num 1)]] :=
    List.mergeSort_of_sorted (by decide)
  have ha : sortRows "a" true [[("a", Value.vnull)], [("a", Value.num 1)]] =
      [[("a", Value.vnull)], [("a", Value.num 1)]] :=
    List.mergeSort_of_sorted (by decide)
  have hd2 : sortRows "a" false [[("a", Value.num 1)], [("a", Value.str "abc")]] =
      [[("a", Value.num 1)], [("a", Value.str "abc")]] :=
    List.mergeSort_of_sorted (by decide)
  have ha2 : sortRows "a" true [[("a", Value.num 1)], [("a", Value.str "abc")]] =
      [[("a", Value.num 1)], [("a", Value.str "abc")]] :=
    List.mergeSort_of_sorted (by decide)
  exact ⟨⟨by decide, by rw [hd, ha]; decide⟩,
    ⟨by decide, by decide, by decide, by rw [hd2, ha2]; decide⟩⟩

/-- Reading a key just written. -/
theorem alookup_aset_self {α : Type} :
    ∀ (m : List (String × α)) (k : String) (v : α),
      alookup (aset m k v) k = some v
  | [], k, v => by simp [aset, alookup]
  | (k', v') :: rest, k, v => by
    by_cases h : k' = k
    · simp [aset, alookup, h]
    · simp [aset, alookup, h, alookup_aset_self rest k v]

/-- Writing one key does not change the reading of another. -/
theorem alookup_aset_ne {α : Type} :
    ∀ (m : List (String × α)) (k : String) (v : α) (k' : String), k ≠ k' →
      alookup (aset m k v) k' = alookup m k'
  | [], k, v, k', h => by simp [aset, alookup, h]
  | (k2, v2) :: rest, k, v, k', h => by
    by_cases h2 : k2 = k
    · subst h2; simp [aset, alookup, h]
    · simp [aset, alookup, h2, alookup_aset_ne rest k v k' h]

/-- The empty issue trace relates a counter table to itself. -/
theorem issueInv_refl (m : List (String × Nat)) : IssueInv m m [] := by
  intro k
  exact ⟨0, by simp [issuedFor], by simp⟩

/-- Issue traces compose. -/
theorem issueInv_comp {m m1 m2 : List (String × Nat)}
    {i1 i2 : List (String × Nat)}
    (h1 : IssueInv m m1 i1) (h2 : IssueInv m1 m2 i2) :
    IssueInv m m2 (i1 ++ i2) := by
  intro k
  obtain ⟨n1, e1, c1⟩ := h1 k
  obtain ⟨n2, e2, c2⟩ := h2 k
  refine ⟨n1 + n2, ?_, by omega⟩
  have hf : issuedFor k (i1 ++ i2) = issuedFor k i1 ++ issuedFor k i2 := by
    simp [issuedFor]
  rw [hf, e1, e2, c1, Nat.add_comm n1 n2, ← List.range'_append_1]

/-- A single issue step: the issued value is the counter reading and
the counter advances by one. -/
theorem issueInv_single (m : List (String × Nat)) (k0 : String) :
    IssueInv m (aset m k0 (cnt m k0 + 1)) [(k0, cnt m k0)] := by
  intro k
  by_cases h : k0 = k
  · subst h
    refine ⟨1, ?_, ?_⟩
    · simp [issuedFor, List.range']
    · simp [cnt, alookup_aset_self]
  · refine ⟨0, ?_, ?_⟩
    · simp [issuedFor, List.filter_cons, h]
    · simp [cnt, alookup_aset_ne m k0 _ k h]

/-- The auto-increment loop appends its issues to the incoming trail
and satisfies the issue invariant between its counter tables. -/
theorem applyAuto_fold_inv (db tbl : String) :
    ∀ (cols : List String) (st : AutoOut),
      ∃ d, (cols.foldl (autoStep db tbl) st).issued = st.issued ++ d ∧
        IssueInv st.auto (cols.foldl (autoStep db tbl) st).auto d
  | [], st => ⟨[], by simp, issueInv_refl st.auto⟩
  | col :: cols, st => by
    rw [List.foldl_cons]
    by_cases h : (rowGet st.row col = Value.vnull ||
        rowGet st.row col = Value.undefV) = true
    · have hst : autoStep db tbl st col =
          ⟨aset st.row col (.num (cnt st.auto (autoKey db tbl col) : ℚ)),
           aset st.auto (autoKey db tbl col) (cnt st.auto (autoKey db tbl col) + 1),
           st.issued ++ [(autoKey db tbl col, cnt st.auto (autoKey db tbl col))]⟩ := by
        simp [autoStep, h]
      obtain ⟨d2, h2, hinv2⟩ := applyAuto_fold_inv db tbl cols (autoStep db tbl st col)
      refine ⟨(autoKey db tbl col, cnt st.auto (autoKey db tbl col)) :: d2, ?_, ?_⟩
      · rw [h2, hst]; simp
      · have hone := issueInv_single st.auto (autoKey db tbl col)
        have hau : (autoStep db tbl st col).auto =
            aset st.auto (autoKey db tbl col)
              (cnt st.auto (autoKey db tbl col) + 1) := by rw [hst]
        exact issueInv_comp hone (hau ▸ hinv2)
    · have hst : autoStep db tbl st col = st := by
        simp [autoStep, h]
      rw [hst]
      exact applyAuto_fold_inv db tbl cols st

/-- The tuple loop of the insert executor satisfies the issue
invariant (also on the runs cut short by an arity error). -/
theorem insertLoop_inv (db tbl : String) (allCols : List String)
    (colsPart : Option (List String)) (autokeys : List String) :
    ∀ (tuples : List (List Value)) (auto : List (String × Nat)),
      IssueInv auto (insertLoop db tbl allCols colsPart autokeys auto tuples).auto
        (insertLoop db tbl allCols colsPart autokeys auto tuples).issued
  | [], auto => issueInv_refl auto
  | t :: ts, auto => by
    unfold insertLoop
    cases hb : buildRow allCols colsPart t with
    | error e => exact issueInv_refl auto
    | ok row =>
      obtain ⟨d, hd, hinv⟩ :=
        applyAuto_fold_inv db tbl autokeys (⟨row, auto, []⟩ : AutoOut)
      have hinv2 := insertLoop_inv db tbl allCols colsPart autokeys ts
        (applyAutoCols db tbl autokeys row auto).auto
      simp only [applyAutoCols] at *
      rw [hd]
      simp only [List.nil_append]
      exact issueInv_comp hinv hinv2

/-- The insert executor satisfies the issue invariant between the
incoming and outgoing counter tables. -/
theorem insertExec_inv (e : Engine) (tn : String) (cr : Option String)
    (vs : String) :
    IssueInv e.autoinc (insertExec e tn cr vs).engine.autoinc
      (insertExec e tn cr vs).issued := by
  unfold insertExec
  dsimp only
  split
  · exact issueInv_refl e.autoinc
  · split
    · exact issueInv_refl e.autoinc
    · split <;> exact insertLoop_inv _ _ _ _ _ _ e.autoinc

/-- The delete executor issues nothing and never touches the counter
table. -/
theorem deleteExec_auto (e : Engine) (tn : String) (wh : Option String) :
    (deleteExec e tn wh).issued = [] ∧
    (deleteExec e tn wh).engine.autoinc = e.autoinc := by
  unfold deleteExec
  dsimp only
  split
  · exact ⟨rfl, rfl⟩
  · split
    · exact ⟨rfl, rfl⟩
    · exact ⟨rfl, rfl⟩

/-- Every statement satisfies the issue invariant. -/
theorem runOp_inv (e : Engine) (op : SqlOp) :
    IssueInv e.autoinc (runOp e op).engine.autoinc (runOp e op).issued := by
  cases op with
  | ins t c v => exact insertExec_inv e t c v
  | del t w =>
    obtain ⟨h1, h2⟩ := deleteExec_auto e t w
    unfold runOp
    rw [h1, h2]
    exact issueInv_refl e.autoinc

/-- Statement sequences satisfy the issue invariant. -/
theorem runOps_inv : ∀ (ops : List SqlOp) (e : Engine),
    IssueInv e.autoinc (runOps e ops).1.autoinc (runOps e ops).2
  | [], e => issueInv_refl e.autoinc
  | op :: ops, e => by
    unfold runOps
    exact issueInv_comp (runOp_inv e op) (runOps_inv ops (runOp e op).engine)

/-- Consecutive runs increase by one at every step. -/
theorem chain_succ_range' :
    ∀ (n s : Nat), List.Chain' (fun a b => b = a + 1) (List.range' s n)
  | 0, _ => by simp
  | 1, s => by simp [List.range']
  | n + 2, s => by
    rw [List.range'_succ]
    have h2 := List.range'_succ (s + 1) n 1
    rw [h2]
    refine List.chain'_cons.mpr ⟨rfl, ?_⟩
    rw [← h2]
    exact chain_succ_range' (n + 1) (s + 1)

/-- C3: for every counter key (database.table.column), across any
sequence of INSERT and DELETE statements, the values issued for
null/omitted auto-increment cells form the consecutive run starting at
the incoming counter reading: they increase exactly by one from one
issue to the next (in particular inside a single multi-row INSERT),
they are pairwise distinct so no value is ever issued twice, the
counter advances by one per issued value, it is monotonically
non-decreasing, and DELETE statements never touch it. -/
theorem C3_autoincrement_counter :
    ∀ (e : Engine) (ops : List SqlOp) (k : String),
      issuedFor k (runOps e ops).2 =
        List.range' (cnt e.autoinc k) (issuedFor k (runOps e ops).2).length
      ∧ cnt (runOps e ops).1.autoinc k =
          cnt e.autoinc k + (issuedFor k (runOps e ops).2).length
      ∧ cnt e.autoinc k ≤ cnt (runOps e ops).1.autoinc k
      ∧ List.Chain' (fun a b => b = a + 1) (issuedFor k (runOps e ops).2)
      ∧ List.Pairwise (· < ·) (issuedFor k (runOps e ops).2)
      ∧ (∀ (tbl : String) (wh : Option String),
          (deleteExec e tbl wh).issued = [] ∧
          (deleteExec e tbl wh).engine.autoinc = e.autoinc) := by
  intro e ops k
  obtain ⟨n, hr, hc⟩ := runOps_inv ops e k
  have hlen : (issuedFor k (runOps e ops).2).length = n := by
    rw [hr]; simp
  rw [hlen, hr]
  refine ⟨rfl, by omega, by omega, ?_, ?_, deleteExec_auto e⟩
  · exact chain_succ_range' n (cnt e.autoinc k)
  · exact List.pairwise_lt_range' (cnt e.autoinc k) n

/-- A tuple failing the arity check makes `buildRow` fail with the
branch's arity message. -/
theorem buildRow_error_of_bad {allCols : List String}
    {colsPart : Option (List String)} {t : List Value}
    (h : tupleOk allCols colsPart t = false) :
    buildRow allCols colsPart t = .error (arityMsg colsPart) := by
  cases colsPart with
  | some cs =>
      simp only [tupleOk, decide_eq_false_iff_not] at h
      simp [buildRow, arityMsg, h]
  | none =>
      simp only [tupleOk, decide_eq_false_iff_not, Nat.not_le] at h
      simp [buildRow, arityMsg, h]

/-- A tuple passing the arity check makes `buildRow` succeed. -/
theorem buildRow_ok_of_good {allCols : List String}
    {colsPart : Option (List String)} {t : List Value}
    (h : tupleOk allCols colsPart t = true) :
    ∃ r, buildRow allCols colsPart t = .ok r := by
  cases colsPart with
  | some cs =>
      simp only [tupleOk, decide_eq_true_eq] at h
      exact ⟨(cs.zip t).foldl (fun r p => aset r p.1 p.2)
          (allCols.foldl (fun r c => aset r c .vnull) []),
        by simp [buildRow, h]⟩
  | none =>
      simp only [tupleOk, decide_eq_true_eq] at h
      exact ⟨allCols.enum.foldl (fun r p => aset r p.2 (t.getD p.1 .vnull)) [],
        by simp [buildRow, Nat.not_lt.mpr h]⟩

/-- The only error `buildRow` can produce is the arity message of its
branch. -/
theorem buildRow_error_msg {allCols : List String}
    {colsPart : Option (List String)} {t : List Value} {m : String}
    (h : buildRow allCols colsPart t = .error m) : m = arityMsg colsPart := by
  cases colsPart with
  | some cs =>
      by_cases hc : t.length = cs.length
      · simp [buildRow, hc] at h
      · simp only [buildRow, if_pos (by simpa using hc),
          Except.error.injEq] at h
        exact h.symm
  | none =>
      by_cases hc : allCols.length < t.length
      · simp only [buildRow, if_pos hc, Except.error.injEq] at h
        exact h.symm
      · simp [buildRow, hc] at h

/-- The only error the insert loop can produce is the arity message. -/
theorem insertLoop_err_msg (db tbl : String) (allCols : List String)
    (colsPart : Option (List String)) (autokeys : List String) :
    ∀ (tuples : List (List Value)) (auto : List (String × Nat)) (m : String),
      (insertLoop db tbl allCols colsPart autokeys auto tuples).err = some m →
      m = arityMsg colsPart
  | [], auto, m => by simp [insertLoop]
  | t :: ts, auto, m => by
    unfold insertLoop
    cases hb : buildRow allCols colsPart t with
    | error e =>
        intro h
        obtain rfl : e = m := by injection h
        exact buildRow_error_msg hb
    | ok row =>
        exact insertLoop_err_msg db tbl allCols colsPart autokeys ts _ m

/-- The insert loop succeeds when every tuple passes the arity check. -/
theorem insertLoop_ok_of_all_good (db tbl : String) (allCols : List String)
    (colsPart : Option (List String)) (autokeys : List String) :
    ∀ (tuples : List (List Value)) (auto : List (String × Nat)),
      (∀ t ∈ tuples, tupleOk allCols colsPart t = true) →
      (insertLoop db tbl allCols colsPart autokeys auto tuples).err = none
  | [], auto, _ => rfl
  | t :: ts, auto, h => by
    obtain ⟨r, hr⟩ := buildRow_ok_of_good (h t (by simp))
    unfold insertLoop
    rw [hr]
    exact insertLoop_ok_of_all_good db tbl allCols colsPart autokeys ts _
      (fun t ht => h t (by simp [ht]))

/-- C1 amended, loop part: with at least one malformed tuple the loop
errors with the arity message, and its appended rows, counter table
and issue trail are exactly those of the run over the tuples strictly
before the first malformed tuple (which itself runs without error).
In particular a leading malformed tuple leaves everything untouched. -/
theorem insertLoop_prefix (db tbl : String) (allCols : List String)
    (colsPart : Option (List String)) (autokeys : List String) :
    ∀ (tuples : List (List Value)) (auto : List (String × Nat)),
      (∃ t ∈ tuples, tupleOk allCols colsPart t = false) →
      (insertLoop db tbl allCols colsPart autokeys auto tuples).err =
          some (arityMsg colsPart)
      ∧ (insertLoop db tbl allCols colsPart autokeys auto tuples).rows =
          (insertLoop db tbl allCols colsPart autokeys auto
            (tuples.takeWhile (tupleOk allCols colsPart))).rows
      ∧ (insertLoop db tbl allCols colsPart autokeys auto tuples).auto =
          (insertLoop db tbl allCols colsPart autokeys auto
            (tuples.takeWhile (tupleOk allCols colsPart))).auto
      ∧ (insertLoop db tbl allCols colsPart autokeys auto tuples).issued =
          (insertLoop db tbl allCols colsPart autokeys auto
            (tuples.takeWhile (tupleOk allCols colsPart))).issued
      ∧ (insertLoop db tbl allCols colsPart autokeys auto
          (tuples.takeWhile (tupleOk allCols colsPart))).err = none
  | [], auto, h => by simp at h
  | t :: ts, auto, h => by
    by_cases hg : tupleOk allCols colsPart t = true
    · obtain ⟨row, hrow⟩ := buildRow_ok_of_good hg
      have hbad : ∃ t2 ∈ ts, tupleOk allCols colsPart t2 = false := by
        obtain ⟨t2, ht2, hb⟩ := h
        rcases List.mem_cons.mp ht2 with rfl | hmem
        · rw [hg] at hb; cases hb
        · exact ⟨t2, hmem, hb⟩
      have ih := insertLoop_prefix db tbl allCols colsPart autokeys ts
        (applyAutoCols db tbl autokeys row auto).auto hbad
      rw [List.takeWhile_cons_of_pos hg]
      unfold insertLoop
      rw [hrow]
      dsimp only
      exact ⟨ih.1, by rw [ih.2.1], by rw [ih.2.2.1], by rw [ih.2.2.2.1],
        ih.2.2.2.2⟩
    · have hb : tupleOk allCols colsPart t = false := by
        simpa using hg
      have herr := buildRow_error_of_bad hb
      rw [List.takeWhile_cons_of_neg (by simp [hb])]
      unfold insertLoop
      rw [herr]
      exact ⟨rfl, rfl, rfl, rfl, rfl⟩

/-- C1 counterexample: a two-tuple INSERT whose second tuple has the
wrong arity returns the arity error, yet the Store is mutated: the row
built from the first tuple is appended and the auto-increment counter
has advanced. -/
theorem C1_counterexample :
    (insertInto sampleEngine "INSERT INTO t (id,a) VALUES (NULL,1),(2)").out =
      "ERROR: Column count doesn\x27t match value count." ∧
    (insertInto sampleEngine "INSERT INTO t (id,a) VALUES (NULL,1),(2)").engine =
      { databases :=
          [("d",
            [("t",
              { columns :=
                  [⟨"id", "INT", true, true⟩, ⟨"a", "INT", false, false⟩,
                   ⟨"b", "INT", false, false⟩],
                rows := [[("id", Value.num 1), ("a", Value.num 1),
                          ("b", Value.vnull)]] })])],
        currentDB := some "d",
        autoinc := [("d.t.id", 2)] } ∧
    (insertInto sampleEngine "INSERT INTO t (id,a) VALUES (NULL,1),(2)").engine ≠
      sampleEngine := by
  refine ⟨by decide, by decide, by decide⟩

/-- C1 amended: an error raised before the tuple loop (no database
selected, unknown database or table) leaves the Store unchanged, and a
successful INSERT reports Query OK; the only errors that can mutate
the Store are the two arity messages, and for those the rows appended,
counters advanced and values issued are exactly those of the tuples
strictly before the first malformed tuple (nothing when the first
tuple is malformed). -/
theorem C1_amended_insert_partial_mutation :
    (∀ (db tbl : String) (allCols : List String)
        (colsPart : Option (List String)) (autokeys : List String)
        (auto : List (String × Nat)) (tuples : List (List Value)),
      (∃ t ∈ tuples, tupleOk allCols colsPart t = false) →
      (insertLoop db tbl allCols colsPart autokeys auto tuples).err =
          some (arityMsg colsPart)
      ∧ (insertLoop db tbl allCols colsPart autokeys auto tuples).rows =
          (insertLoop db tbl allCols colsPart autokeys auto
            (tuples.takeWhile (tupleOk allCols colsPart))).rows
      ∧ (insertLoop db tbl allCols colsPart autokeys auto tuples).auto =
          (insertLoop db tbl allCols colsPart autokeys auto
            (tuples.takeWhile (tupleOk allCols colsPart))).auto
      ∧ (insertLoop db tbl allCols colsPart autokeys auto tuples).issued =
          (insertLoop db tbl allCols colsPart autokeys auto
            (tuples.takeWhile (tupleOk allCols colsPart))).issued
      ∧ (insertLoop db tbl allCols colsPart autokeys auto
          (tuples.takeWhile (tupleOk allCols colsPart))).err = none)
    ∧ (∀ (e : Engine) (tn : String) (cr : Option String) (vs : String),
        ((insertExec e tn cr vs).engine = e ∧ (insertExec e tn cr vs).issued = [])
        ∨ (∃ n : Nat, (insertExec e tn cr vs).out =
            "Query OK, " ++ toString n ++ " row(s) affected")
        ∨ (insertExec e tn cr vs).out =
            "ERROR: Column count doesn\x27t match value count."
        ∨ (insertExec e tn cr vs).out = "ERROR: Too many values.") := by
  constructor
  · intro db tbl allCols colsPart autokeys auto tuples h
    exact insertLoop_prefix db tbl allCols colsPart autokeys tuples auto h
  · intro e tn cr vs
    unfold insertExec
    dsimp only
    split
    · exact Or.inl ⟨rfl, rfl⟩
    · split
      · exact Or.inl ⟨rfl, rfl⟩
      · split
        · next msg heq =>
            have hm := insertLoop_err_msg _ _ _ _ _ _ _ _ heq
            cases cr with
            | none => exact Or.inr (Or.inr (Or.inr (by simpa [arityMsg] using hm)))
            | some s =>
                by_cases hs : s = ""
                · exact Or.inr (Or.inr (Or.inr (by simpa [arityMsg, hs] using hm)))
                · exact Or.inr (Or.inr (Or.inl (by simpa [arityMsg, hs] using hm)))
        · exact Or.inr (Or.inl ⟨_, rfl⟩)

/-- Witness for C1 amended at the counterexample input: the second
tuple is malformed, the loop errors with the arity message, and the
appended rows equal those of the run over the first tuple alone. -/
theorem C1_amended_insert_partial_mutation_witness :
    (∃ t ∈ [[Value.vnull, Value.num 1], [Value.num 2]],
        tupleOk ["id", "a", "b"] (some ["id", "a"]) t = false) ∧
    (insertLoop "d" "t" ["id", "a", "b"] (some ["id", "a"]) ["id"]
        [("d.t.id", 1)] [[Value.vnull, Value.num 1], [Value.num 2]]).err =
      some (arityMsg (some ["id", "a"])) ∧
    (insertLoop "d" "t" ["id", "a", "b"] (some ["id", "a"]) ["id"]
        [("d.t.id", 1)] [[Value.vnull, Value.num 1], [Value.num 2]]).rows =
      (insertLoop "d" "t" ["id", "a", "b"] (some ["id", "a"]) ["id"]
        [("d.t.id", 1)]
        ([[Value.vnull, Value.num 1], [Value.num 2]].takeWhile
          (tupleOk ["id", "a", "b"] (some ["id", "a"])))).rows :=
  ⟨by decide,
   (C1_amended_insert_partial_mutation.1 "d" "t" ["id", "a", "b"]
      (some ["id", "a"]) ["id"] [("d.t.id", 1)]
      [[Value.vnull, Value.num 1], [Value.num 2]] (by decide)).1,
   (C1_amended_insert_partial_mutation.1 "d" "t" ["id", "a", "b"]
      (some ["id", "a"]) ["id"] [("d.t.id", 1)]
      [[Value.vnull, Value.num 1], [Value.num 2]] (by decide)).2.1⟩

/-- Merging depends only on the comparator's values on the merged
elements. -/
theorem merge_congr (le le' : Row → Row → Bool) :
    ∀ (l r : List Row),
      (∀ a ∈ l, ∀ b ∈ r, le a b = le' a b) →
      List.merge l r le = List.merge l r le' := by
  intro l
  induction l with
  | nil => intro r _; simp
  | cons x xs ihl =>
    intro r
    induction r with
    | nil => intro _; simp
    | cons y ys ihr =>
      intro h
      rw [List.cons_merge_cons, List.cons_merge_cons,
        h x (by simp) y (by simp)]
      by_cases hxy : le' x y = true
      · rw [if_pos hxy, if_pos hxy,
          ihl (y :: ys) (fun a ha b hb => h a (by simp [ha]) b hb)]
      · rw [if_neg hxy, if_neg hxy,
          ihr (fun a ha b hb => h a ha b (by simp [hb]))]

/-- Merge sort depends only on the comparator's values on the list
elements. -/
theorem mergeSort_congr :
    ∀ (l : List Row) (le le' : Row → Row → Bool),
      (∀ a ∈ l, ∀ b ∈ l, le a b = le' a b) →
      l.mergeSort le = l.mergeSort le'
  | [], _, _, _ => by simp
  | [a], _, _, _ => by simp
  | a :: b :: xs, le, le', h => by
    have h1 : (List.splitInTwo ⟨a :: b :: xs, rfl⟩).1.1.length < xs.length + 1 + 1 := by
      simp [List.splitInTwo_fst]; omega
    have h2 : (List.splitInTwo ⟨a :: b :: xs, rfl⟩).2.1.length < xs.length + 1 + 1 := by
      simp [List.splitInTwo_snd]; omega
    have hm1 : ∀ x ∈ (List.splitInTwo ⟨a :: b :: xs, rfl⟩).1.1, x ∈ a :: b :: xs := by
      intro x hx
      rw [List.splitInTwo_fst] at hx
      exact List.mem_of_mem_take hx
    have hm2 : ∀ x ∈ (List.splitInTwo ⟨a :: b :: xs, rfl⟩).2.1, x ∈ a :: b :: xs := by
      intro x hx
      rw [List.splitInTwo_snd] at hx
      exact List.mem_of_mem_drop hx
    rw [List.mergeSort, List.mergeSort]
    rw [mergeSort_congr (List.splitInTwo ⟨a :: b :: xs, rfl⟩).1.1 le le'
      (fun x hx y hy => h x (hm1 x hx) y (hm1 y hy))]
    rw [mergeSort_congr (List.splitInTwo ⟨a :: b :: xs, rfl⟩).2.1 le le'
      (fun x hx y hy => h x (hm2 x hx) y (hm2 y hy))]
    apply merge_congr
    intro x hx y hy
    exact h x (hm1 x ((List.mergeSort_perm _ le').mem_iff.mp hx))
      y (hm2 y ((List.mergeSort_perm _ le').mem_iff.mp hy))
  termination_by l => l.length

/-- On rows with numeric order-column values the ascending comparator
is the numeric ordering of the keys. -/
theorem sortCmp_le_asc {col : String} {a b : Row} {qa qb : ℚ}
    (ha : rowGet a col = .num qa) (hb : rowGet b col = .num qb) :
    decide (sortCmp col true a b ≤ 0) = decide (qkeyOf col a ≤ qkeyOf col b) := by
  have hka : qkeyOf col a = qa := by simp [qkeyOf, ha]
  have hkb : qkeyOf col b = qb := by simp [qkeyOf, hb]
  rw [hka, hkb]
  unfold sortCmp jsRelLt
  rw [ha, hb]
  rcases lt_trichotomy qa qb with h | h | h
  · simp [isNullish, jsToNumber, h, le_of_lt h, not_lt_of_lt h]
  · subst h
    simp [isNullish, jsToNumber, lt_irrefl]
  · simp [isNullish, jsToNumber, h, not_lt_of_lt h, not_le_of_lt h]

/-- On rows with numeric order-column values the descending comparator
is the reversed numeric ordering of the keys. -/
theorem sortCmp_le_desc {col : String} {a b : Row} {qa qb : ℚ}
    (ha : rowGet a col = .num qa) (hb : rowGet b col = .num qb) :
    decide (sortCmp col false a b ≤ 0) = decide (qkeyOf col b ≤ qkeyOf col a) := by
  have hka : qkeyOf col a = qa := by simp [qkeyOf, ha]
  have hkb : qkeyOf col b = qb := by simp [qkeyOf, hb]
  rw [hka, hkb]
  unfold sortCmp jsRelLt
  rw [ha, hb]
  rcases lt_trichotomy qa qb with h | h | h
  · simp [isNullish, jsToNumber, h, not_lt_of_lt h, not_le_of_lt h]
  · subst h
    simp [isNullish, jsToNumber, lt_irrefl]
  · simp [isNullish, jsToNumber, h, le_of_lt h, not_lt_of_lt h]

/-- On rows with text order-column values the ascending comparator
is the lexicographic ordering of the keys. -/
theorem sortCmp_le_asc_str {col : String} {a b : Row} {sa sb : String}
    (ha : rowGet a col = .str sa) (hb : rowGet b col = .str sb) :
    decide (sortCmp col true a b ≤ 0) = decide (skeyOf col a ≤ skeyOf col b) := by
  have hka : skeyOf col a = sa := by simp [skeyOf, ha]
  have hkb : skeyOf col b = sb := by simp [skeyOf, hb]
  rw [hka, hkb]
  unfold sortCmp jsRelLt
  rw [ha, hb]
  rcases lt_trichotomy sa sb with h | h | h
  · simp [isNullish, h, le_of_lt h, not_lt_of_lt h]
  · subst h
    simp [isNullish, lt_irrefl]
  · simp [isNullish, h, not_lt_of_lt h, not_le_of_lt h]

/-- On rows with text order-column values the descending comparator
is the reversed lexicographic ordering of the keys. -/
theorem sortCmp_le_desc_str {col : String} {a b : Row} {sa sb : String}
    (ha : rowGet a col = .str sa) (hb : rowGet b col = .str sb) :
    decide (sortCmp col false a b ≤ 0) = decide (skeyOf col b ≤ skeyOf col a) := by
  have hka : skeyOf col a = sa := by simp [skeyOf, ha]
  have hkb : skeyOf col b = sb := by simp [skeyOf, hb]
  rw [hka, hkb]
  unfold sortCmp jsRelLt
  rw [ha, hb]
  rcases lt_trichotomy sa sb with h | h | h
  · simp [isNullish, h, not_lt_of_lt h, not_le_of_lt h]
  · subst h
    simp [isNullish, lt_irrefl]
  · simp [isNullish, h, le_of_lt h, not_lt_of_lt h]

/-- Sorting by a linearly ordered key with the reversed comparator
returns the reverse of sorting with the direct comparator, when the
keys are pairwise distinct. -/
theorem mergeSort_key_desc_reverse {α : Type} [LinearOrder α] (key : Row → α) :
    ∀ (rows : List Row),
      List.Pairwise (fun a b => key a ≠ key b) rows →
      rows.mergeSort (fun a b => decide (key b ≤ key a)) =
        (rows.mergeSort (fun a b => decide (key a ≤ key b))).reverse := by
  intro rows hkdist
  set leA : Row → Row → Bool := fun a b => decide (key a ≤ key b) with hleA
  set leD : Row → Row → Bool := fun a b => decide (key b ≤ key a) with hleD
  have hpermX : List.Perm (rows.mergeSort leA) rows := List.mergeSort_perm rows leA
  have hpermD : List.Perm (rows.mergeSort leD) rows := List.mergeSort_perm rows leD
  have htransA : ∀ a b c : Row, leA a b → leA b c → leA a c := by
    intro a b c h1 h2
    simp only [hleA, decide_eq_true_eq] at *
    exact le_trans h1 h2
  have htotA : ∀ a b : Row, leA a b || leA b a := by
    intro a b
    simp only [hleA, Bool.or_eq_true, decide_eq_true_eq]
    exact le_total _ _
  have htransD : ∀ a b c : Row, leD a b → leD b c → leD a c := by
    intro a b c h1 h2
    simp only [hleD, decide_eq_true_eq] at *
    exact le_trans h2 h1
  have htotD : ∀ a b : Row, leD a b || leD b a := by
    intro a b
    simp only [hleD, Bool.or_eq_true, decide_eq_true_eq]
    exact le_total _ _
  have hsortX : List.Pairwise (fun a b => leA a b = true) (rows.mergeSort leA) :=
    List.sorted_mergeSort htransA htotA rows
  have hsortD : List.Pairwise (fun a b => leD a b = true) (rows.mergeSort leD) :=
    List.sorted_mergeSort htransD htotD rows
  have hsym : ∀ {x y : Row},
      (fun a b => key a ≠ key b) x y →
      (fun a b => key a ≠ key b) y x := fun h => Ne.symm h
  have hkdX : List.Pairwise (fun a b => key a ≠ key b) (rows.mergeSort leA) :=
    ((List.Perm.pairwise_iff hsym hpermX).mpr hkdist)
  have hkdD : List.Pairwise (fun a b => key a ≠ key b) (rows.mergeSort leD) :=
    ((List.Perm.pairwise_iff hsym hpermD).mpr hkdist)
  have hstrictX : List.Pairwise (fun a b => key a < key b) (rows.mergeSort leA) := by
    refine (hsortX.and hkdX).imp ?_
    rintro a b ⟨h1, h2⟩
    simp only [hleA, decide_eq_true_eq] at h1
    exact lt_of_le_of_ne h1 h2
  have hstrictDrev : List.Pairwise (fun a b => key a < key b)
      (rows.mergeSort leD).reverse := by
    rw [List.pairwise_reverse]
    refine (hsortD.and hkdD).imp ?_
    rintro a b ⟨h1, h2⟩
    simp only [hleD, decide_eq_true_eq] at h1
    exact lt_of_le_of_ne h1 (Ne.symm h2)
  have hperm2 : List.Perm (rows.mergeSort leA) (rows.mergeSort leD).reverse :=
    hpermX.trans (hpermD.symm.trans (List.reverse_perm (rows.mergeSort leD)).symm)
  haveI : IsAntisymm Row (fun a b => key a < key b) :=
    ⟨fun a b h1 h2 => absurd h2 (not_lt_of_lt h1)⟩
  have heq : rows.mergeSort leA = (rows.mergeSort leD).reverse :=
    List.eq_of_perm_of_sorted hperm2 hstrictX hstrictDrev
  rw [heq, List.reverse_reverse]

/-- C6 amended: when the selected rows' order-column values are all
non-null and mutually comparable — all numeric or all text — and no
two rows have equal values in that column, ORDER BY DESC returns
exactly the reverse of ORDER BY ASC.  (A null value sorts first in
both directions, and a mixed-type pair such as a number and a
non-numeric text compares as a tie in both directions, so in either
of those situations the orders need not be reversed even without
equal values.) -/
theorem C6_amended_desc_reverses_asc :
    ∀ (col : String) (rows : List Row),
      ((∀ r ∈ rows, ∃ q : ℚ, rowGet r col = .num q) ∨
        (∀ r ∈ rows, ∃ s : String, rowGet r col = .str s)) →
      List.Pairwise (fun a b => rowGet a col ≠ rowGet b col) rows →
      sortRows col false rows = (sortRows col true rows).reverse := by
  intro col rows hval hdist
  rcases hval with hnum | hstr
  · have hA : sortRows col true rows =
        rows.mergeSort (fun a b => decide (qkeyOf col a ≤ qkeyOf col b)) := by
      apply mergeSort_congr
      intro a ha b hb
      obtain ⟨qa, hqa⟩ := hnum a ha
      obtain ⟨qb, hqb⟩ := hnum b hb
      exact sortCmp_le_asc hqa hqb
    have hD : sortRows col false rows =
        rows.mergeSort (fun a b => decide (qkeyOf col b ≤ qkeyOf col a)) := by
      apply mergeSort_congr
      intro a ha b hb
      obtain ⟨qa, hqa⟩ := hnum a ha
      obtain ⟨qb, hqb⟩ := hnum b hb
      exact sortCmp_le_desc hqa hqb
    have hkdist : List.Pairwise (fun a b => qkeyOf col a ≠ qkeyOf col b) rows := by
      refine hdist.imp_of_mem ?_
      intro a b ha hb hne
      obtain ⟨qa, hqa⟩ := hnum a ha
      obtain ⟨qb, hqb⟩ := hnum b hb
      simp only [qkeyOf, hqa, hqb]
      intro hq
      exact hne (by rw [hqa, hqb, hq])
    rw [hA, hD]
    exact mergeSort_key_desc_reverse (qkeyOf col) rows hkdist
  · have hA : sortRows col true rows =
        rows.mergeSort (fun a b => decide (skeyOf col a ≤ skeyOf col b)) := by
      apply mergeSort_congr
      intro a ha b hb
      obtain ⟨sa, hsa⟩ := hstr a ha
      obtain ⟨sb, hsb⟩ := hstr b hb
      exact sortCmp_le_asc_str hsa hsb
    have hD : sortRows col false rows =
        rows.mergeSort (fun a b => decide (skeyOf col b ≤ skeyOf col a)) := by
      apply mergeSort_congr
      intro a ha b hb
      obtain ⟨sa, hsa⟩ := hstr a ha
      obtain ⟨sb, hsb⟩ := hstr b hb
      exact sortCmp_le_desc_str hsa hsb
    have hkdist : List.Pairwise (fun a b => skeyOf col a ≠ skeyOf col b) rows := by
      refine hdist.imp_of_mem ?_
      intro a b ha hb hne
      obtain ⟨sa, hsa⟩ := hstr a ha
      obtain ⟨sb, hsb⟩ := hstr b hb
      simp only [skeyOf, hsa, hsb]
      intro hs
      exact hne (by rw [hsa, hsb, hs])
    rw [hA, hD]
    exact mergeSort_key_desc_reverse (skeyOf col) rows hkdist

/-- Witness for C6 amended on two numeric rows and on two text rows,
each pair in descending initial order. -/
theorem C6_amended_desc_reverses_asc_witness :
    (sortRows "a" false [[("a", Value.num 2)], [("a", Value.num 1)]] =
      (sortRows "a" true [[("a", Value.num 2)], [("a", Value.num 1)]]).reverse) ∧
    (sortRows "a" false [[("a", Value.str "b")], [("a", Value.str "a")]] =
      (sortRows "a" true [[("a", Value.str "b")], [("a", Value.str "a")]]).reverse) :=
  ⟨C6_amended_desc_reverses_asc "a" [[("a", Value.num 2)], [("a", Value.num 1)]]
    (Or.inl (by
      intro r hr
      rcases List.mem_cons.mp hr with rfl | hr2
      · exact ⟨2, rfl⟩
      · rcases List.mem_cons.mp hr2 with rfl | hr3
        · exact ⟨1, rfl⟩
        · cases hr3))
    (by decide),
   C6_amended_desc_reverses_asc "a" [[("a", Value.str "b")], [("a", Value.str "a")]]
    (Or.inr (by
      intro r hr
      rcases List.mem_cons.mp hr with rfl | hr2
      · exact ⟨"b", rfl⟩
      · rcases List.mem_cons.mp hr2 with rfl | hr3
        · exact ⟨"a", rfl⟩
        · cases hr3))
    (by decide)⟩

end MSim
